import Mathlib

/-!
# json-pre-commit: the pre-commit JSON check of `main.go`

A shallow embedding of the three functions of `main.go`:

* `getWindow`    (lines 104-132): the context-window extractor;
* `handleFile`   (lines 51-102): the per-file validator;
* `handleOutput` (lines 28-49) and the single call `main` makes to it
  (lines 149-150): the reader of the candidate stream.

Go `string` and `[]byte` values are lists of bytes.  Go `int`/`int64` values are
modelled by `Int` (or by `Nat` where the code keeps them non-negative); the
quantities involved are buffer indices, file sizes and file offsets, which stay
far below `2^63`, so no wrap-around is modelled.  A run-time panic and the
`os.Exit(1)` of `handleErr` are explicit results.
-/

namespace JsonPreCommit

/-- One byte of a Go `string` or `[]byte`. -/
abbrev Byte := UInt8

/-- A Go `string` or `[]byte`. -/
abbrev Bytes := List Byte

/-- The constant `windowSize` of line 15. -/
def windowSize : Int := 4096

/-- Run-time panics of the Go program. `fuel` is not a Go panic: it marks a loop of
the model that ran out of its iteration budget (shown below never to happen). -/
inductive Panic
  | indexOutOfRange
  | sliceBounds
  | nilDereference
  | makeSliceLen
  | fuel
  deriving DecidableEq, Repr

deriving instance DecidableEq for Except

/-! ## Go standard library pieces used by the program -/

/-- Membership in the cutset `"\r\n"` handed to `bytes.Trim` on line 131. -/
def isCutset (b : Byte) : Bool := b == 13 || b == 10

/-- The call `bytes.Trim(s, "\r\n")`: the trailing, then the leading bytes of the
cutset are removed. -/
def bytesTrim (s : Bytes) : Bytes := (s.rdropWhile isCutset).dropWhile isCutset

/-- The slice expression `buf[lo:hi]` on a buffer whose capacity is its length. -/
def slice (buf : Bytes) (lo hi : Nat) : Except Panic Bytes :=
  if lo ≤ hi ∧ hi ≤ buf.length then .ok ((buf.drop lo).take (hi - lo))
  else .error .sliceBounds

/-- The slice expression `s[lo:]` on a string, `lo` a Go `int`. -/
def sliceFrom (s : Bytes) (lo : Int) : Except Panic Bytes :=
  if 0 ≤ lo ∧ lo ≤ s.length then .ok (s.drop lo.toNat) else .error .sliceBounds

/-- UTF-8 encodings of the code points for which `unicode.IsSpace` holds:
U+0009..U+000D, U+0020, U+0085, U+00A0, U+1680, U+2000..U+200A, U+2028, U+2029,
U+202F, U+205F, U+3000. -/
def spaceRunes : List Bytes :=
  [[0x09], [0x0A], [0x0B], [0x0C], [0x0D], [0x20], [0xC2, 0x85], [0xC2, 0xA0],
   [0xE1, 0x9A, 0x80],
   [0xE2, 0x80, 0x80], [0xE2, 0x80, 0x81], [0xE2, 0x80, 0x82], [0xE2, 0x80, 0x83],
   [0xE2, 0x80, 0x84], [0xE2, 0x80, 0x85], [0xE2, 0x80, 0x86], [0xE2, 0x80, 0x87],
   [0xE2, 0x80, 0x88], [0xE2, 0x80, 0x89], [0xE2, 0x80, 0x8A],
   [0xE2, 0x80, 0xA8], [0xE2, 0x80, 0xA9], [0xE2, 0x80, 0xAF], [0xE2, 0x81, 0x9F],
   [0xE3, 0x80, 0x80]]

/-- Width in bytes of the white-space rune the string starts with, 0 if it starts
with none. A rune decodes to a white-space code point exactly when the bytes are
that code point's UTF-8 encoding. -/
def leadingSpaceWidth (s : Bytes) : Nat :=
  match spaceRunes.find? (fun e => e.isPrefixOf s) with
  | some e => e.length
  | none => 0

/-- Width in bytes of the white-space rune the string ends with, 0 if it ends with
none. -/
def trailingSpaceWidth (s : Bytes) : Nat :=
  match spaceRunes.find? (fun e => e.isSuffixOf s) with
  | some e => e.length
  | none => 0

/-- Removal of the leading white-space runes; the first argument bounds the number
of runes removed and is set to the length of the string. -/
def trimLeftSpace : Nat → Bytes → Bytes
  | 0, s => s
  | n + 1, s =>
    match leadingSpaceWidth s with
    | 0 => s
    | w + 1 => trimLeftSpace n (s.drop (w + 1))

/-- Removal of the trailing white-space runes; the first argument bounds the number
of runes removed and is set to the length of the string. -/
def trimRightSpace : Nat → Bytes → Bytes
  | 0, s => s
  | n + 1, s =>
    match trailingSpaceWidth s with
    | 0 => s
    | w + 1 => trimRightSpace n (s.take (s.length - (w + 1)))

/-- The function `strings.TrimSpace`: all leading and trailing white space, as
defined by Unicode, is removed. -/
def TrimSpace (s : Bytes) : Bytes :=
  let t := trimLeftSpace s.length s
  trimRightSpace t.length t

/-- A Go `error` value that is not nil. -/
inductive GoError
  | io (msg : String)
  | SyntaxError (msg : String) (Offset : Int)
  | UnmarshalTypeError (Value : String)
  deriving DecidableEq, Repr

/-- The error `io.EOF`. -/
def ioEOF : GoError := .io "EOF"

/-- The error `io.ErrUnexpectedEOF`. -/
def ioErrUnexpectedEOF : GoError := .io "unexpected EOF"

/-- An `io.Reader` over a pipe: the bytes it delivers, then end of file, or the
read error `failure` in place of end of file. -/
structure Reader where
  data : Bytes
  failure : Option GoError
  deriving DecidableEq, Repr

/-- The scan of `ReadString` over the bytes that are left: the bytes up to and
including the first `delim`, and whether `delim` was found. -/
def readUntil (delim : Byte) : Bytes → Bytes × Bool
  | [] => ([], false)
  | b :: rest =>
    if b = delim then ([b], true)
    else ((b :: (readUntil delim rest).1), (readUntil delim rest).2)

/-- The first call of `bufio.Reader.ReadString(delim)` on a reader: the bytes up to
and including the first `delim` with a nil error, or, when the input ends before a
`delim`, the bytes read so far with the error met (`io.EOF` at end of file). -/
def ReadString (r : Reader) (delim : Byte) : Bytes × Option GoError :=
  match readUntil delim r.data with
  | (line, true) => (line, none)
  | (line, false) => (line, some (r.failure.getD ioEOF))

/-! ## `getWindow` (lines 104-132) -/

/-- The loop of lines 108-117, `for snl = offset; snl > 0; snl--`, from the state
`(snl, newlines)`; the result is the value of `snl` when the loop is left. -/
def backLoop (buf : Bytes) : Nat → Nat → Except Panic Nat
  | 0, _ => .ok 0
  | snl + 1, newlines =>
    match buf[snl + 1]? with
    | none => .error .indexOutOfRange
    | some b =>
      if b ≠ 10 then backLoop buf snl newlines
      else if newlines + 1 = 3 then .ok (snl + 1)
      else backLoop buf snl (newlines + 1)

/-- The loop of lines 120-129, `for enl = offset; snl < int64(len(buf)); enl++`,
from the state `(enl, newlines)`; the result is the value of `enl` when the loop
is left. The first argument after `snl` bounds the number of iterations. -/
def fwdLoop (buf : Bytes) (snl : Nat) : Nat → Nat → Nat → Except Panic Nat
  | 0, _, _ => .error .fuel
  | fuel + 1, enl, newlines =>
    if snl < buf.length then
      match buf[enl]? with
      | none => .error .indexOutOfRange
      | some b =>
        if b ≠ 10 then fwdLoop buf snl fuel (enl + 1) newlines
        else if newlines + 1 = 2 then .ok enl
        else fwdLoop buf snl fuel (enl + 1) (newlines + 1)
    else .ok enl

/-- The function `getWindow(buf, offset)`. With a negative `offset` the first loop
is not entered, the condition `snl < len(buf)` of the second holds and its first
access `buf[enl]` has a negative index. Each iteration of the second loop returns
or advances `enl`, and `buf[enl]` panics once `enl` reaches `len(buf)`, so
`len(buf) + 1` iterations are enough. -/
def getWindow (buf : Bytes) (offset : Int) : Except Panic Bytes :=
  if offset < 0 then .error .indexOutOfRange
  else
    match backLoop buf offset.toNat 0 with
    | .error p => .error p
    | .ok snl =>
      match fwdLoop buf snl (buf.length + 1) offset.toNat 0 with
      | .error p => .error p
      | .ok enl =>
        match slice buf snl enl with
        | .error p => .error p
        | .ok w => .ok (bytesTrim w)

/-! ## `handleFile` (lines 51-102) -/

/-- Kind of the top-level value of a JSON document. -/
inductive TopLevel
  | object
  | array
  | string
  | number
  | boolean
  | null
  deriving DecidableEq, Repr

/-- What the JSON scanner of `encoding/json` makes of the bytes of a file. -/
inductive Parse
  /-- A syntactically valid JSON document with top-level value of kind `top`;
  `numbersFit` tells whether every number literal in it fits a `float64`. -/
  | document (top : TopLevel) (numbersFit : Bool)
  /-- The scanner rejects the input after reading `Offset` bytes. -/
  | malformed (msg : String) (Offset : Int)
  /-- The input ends, or a read fails, before a value is complete. -/
  | readFailure (err : GoError)
  deriving DecidableEq, Repr

/-- Name of a kind of value in an `UnmarshalTypeError`. -/
def TopLevel.valueName : TopLevel → String
  | .object => "object"
  | .array => "array"
  | .string => "string"
  | .number => "number"
  | .boolean => "bool"
  | .null => "null"

/-- The call `dec.Decode(&m)` with `m` of type `map[string]interface{}` (lines
60-62): a top-level object decodes into the map, its members into `interface{}`
values, which fails only on a number outside `float64`; a top-level `null` leaves
the map nil; any other top-level value cannot be stored in a map and gives an
`UnmarshalTypeError`; malformed input gives a `SyntaxError` with its offset. -/
def Decode : Parse → Option GoError
  | .document .object true => none
  | .document .object false => some (.UnmarshalTypeError "number")
  | .document .null _ => none
  | .document top _ => some (.UnmarshalTypeError top.valueName)
  | .malformed msg off => some (.SyntaxError msg off)
  | .readFailure err => some err

/-- The file found at a path: the results of the system calls made on it. -/
structure File where
  /-- Error of `os.OpenFile`, if any. -/
  openErr : Option GoError
  /-- Bytes of the file. -/
  content : Bytes
  /-- What the JSON scanner makes of `content`. -/
  parse : Parse
  /-- Error of `f.Stat`, if any. -/
  statErr : Option GoError
  /-- Error of `f.Seek`, if any. -/
  seekErr : Option GoError
  deriving DecidableEq, Repr

/-- A line written by `log.Printf`. -/
inductive Diagnostic
  /-- The format `"%v: %v\n"` of line 75: path and error message. -/
  | plain (path : Bytes) (err : GoError)
  /-- The format `"%v:%v: %v; context:\n%v\n\n"` of line 101. -/
  | withContext (path : Bytes) (offset : Int) (err : GoError) (context : Bytes)
  deriving DecidableEq, Repr

/-- File-system calls made after the decode. -/
inductive FsOp
  | stat
  | seek (start : Int)
  | readFull (len : Int)
  deriving DecidableEq, Repr

/-- How a call ends: it returns, `handleErr` exits the process with status 1, or
the goroutine panics. -/
inductive Exit
  | returned
  | fatal (err : GoError)
  | panicked (p : Panic)
  deriving DecidableEq, Repr

/-- Observable behaviour of one `handleFile` call. -/
structure Run where
  /-- Number of values sent on the channel `c`. -/
  signals : Nat
  /-- Lines logged by `log.Printf`. -/
  log : List Diagnostic
  /-- Calls of `Stat`, `Seek` and `io.ReadFull`, in order. -/
  ops : List FsOp
  /-- How the call ends. -/
  exit : Exit
  deriving DecidableEq, Repr

/-- Lines 82-90: the position `start` of the seek and the value `end` that becomes
the length of the buffer on line 95. -/
def windowRange (size offset : Int) : Int × Int :=
  let start : Int := if offset - windowSize / 2 > 0 then offset - windowSize / 2 else 0
  let end_ : Int := if start + 4096 < size then start + windowSize else size - offset
  (start, end_)

/-- The call `io.ReadFull(f, buf)` after `f.Seek(start, 0)`, for a buffer of `n`
bytes: the `n` bytes from position `start`, or an error when the file has fewer. -/
def readFull (content : Bytes) (start n : Nat) : Except GoError Bytes :=
  let avail := content.drop start
  if n ≤ avail.length then .ok (avail.take n)
  else if avail.length = 0 then .error ioEOF
  else .error ioErrUnexpectedEOF

/-- The function `handleFile(path, wg, c)`. -/
def handleFile (path : Bytes) (f : File) : Run :=
  -- f, err := os.OpenFile(path, os.O_RDONLY, 0660); handleErr(err)
  let err : Option GoError := f.openErr
  match err with
  | some e => ⟨0, [], [], .fatal e⟩
  | none =>
    -- decerr := dec.Decode(&m)
    match Decode f.parse with
    | none => ⟨0, [], [], .returned⟩
    | some decerr =>
      -- c <- struct{}{}, then lines 69-72
      let offset : Int :=
        match decerr with
        | .SyntaxError _ off => off
        | _ => 0
      if offset = 0 then
        -- line 75 calls err.Error() on the `err` of line 56
        match err with
        | none => ⟨1, [], [], .panicked .nilDereference⟩
        | some e => ⟨1, [.plain path e], [], .returned⟩
      else
        -- fi, err := f.Stat(); handleErr(err)
        match f.statErr with
        | some e => ⟨1, [], [.stat], .fatal e⟩
        | none =>
          let size : Int := f.content.length
          let start := (windowRange size offset).1
          let end_ := (windowRange size offset).2
          -- _, err = f.Seek(start, 0); handleErr(err)
          match f.seekErr with
          | some e => ⟨1, [], [.stat, .seek start], .fatal e⟩
          | none =>
            -- buf := make([]byte, end)
            if end_ < 0 then ⟨1, [], [.stat, .seek start], .panicked .makeSliceLen⟩
            else
              -- _, err = io.ReadFull(f, buf); handleErr(err)
              match readFull f.content start.toNat end_.toNat with
              | .error e => ⟨1, [], [.stat, .seek start, .readFull end_], .fatal e⟩
              | .ok buf =>
                match getWindow buf (offset - start) with
                | .error p => ⟨1, [], [.stat, .seek start, .readFull end_], .panicked p⟩
                | .ok w =>
                  ⟨1, [.withContext path offset decerr w],
                    [.stat, .seek start, .readFull end_], .returned⟩

/-! ## `handleOutput` (lines 28-49) and its call in `main` -/

/-- The string `".json"`. -/
def dotJson : Bytes := [46, 106, 115, 111, 110]

/-- The function `handleOutput(r, wg, c)`: the paths on which it starts
`handleFile`, or the error with which `handleErr` exits the process, or a
panic. -/
def handleOutput (r : Reader) : Except Exit (List Bytes) :=
  -- line, err := b.ReadString('\n')
  match ReadString r 10 with
  | (_, some err) =>
    -- end of file is not an error
    if err = ioEOF then .ok [] else .error (.fatal err)
  | (line, none) =>
    let line := TrimSpace line
    if (line.length : Int) < 5 then .ok []
    else
      match sliceFrom line ((line.length : Int) - (dotJson.length : Int)) with
      | .error p => .error (.panicked p)
      | .ok suffix => if suffix ≠ dotJson then .ok [] else .ok [line]

/-- The paths handed to `handleFile` in a run of the program: `main` starts
`handleOutput` once on the output of the diff command (lines 149-150), and
`handleFile` is started nowhere else. -/
def dispatched (stdout : Reader) : Except Exit (List Bytes) :=
  handleOutput stdout

/-! ## Reference definitions the properties are stated against -/

/-- Whether index `i` of the buffer holds a line feed. -/
def isNewlineAt (buf : Bytes) (i : Nat) : Bool := decide (buf[i]? = some 10)

/-- Indices of the line feeds met scanning backward from `offset` (inclusive) to
index 0, in the order met. -/
def newlinesBackward (buf : Bytes) (offset : Nat) : List Nat :=
  ((List.range (offset + 1)).reverse).filter (isNewlineAt buf)

/-- Indices of the line feeds met scanning forward from `offset` (inclusive) to the
end of the buffer, in the order met. -/
def newlinesForward (buf : Bytes) (offset : Nat) : List Nat :=
  (List.range' offset (buf.length - offset)).filter (isNewlineAt buf)

/-- Window start of the specification: the index of the 3rd line feed met scanning
backward, index 0 when fewer than 3 are met. -/
def windowStartSpec (buf : Bytes) (offset : Nat) : Nat :=
  ((newlinesBackward buf offset)[2]?).getD 0

/-- Window end of the specification: the index of the 2nd line feed met scanning
forward, the length of the buffer when fewer than 2 are met. -/
def windowEndSpec (buf : Bytes) (offset : Nat) : Nat :=
  ((newlinesForward buf offset)[1]?).getD buf.length

/-- The newline-terminated lines of a stream, each with its line feed; `cur` holds
the bytes of the line being read. Bytes after the last line feed form no line. -/
def splitLines : Bytes → Bytes → List Bytes
  | [], _ => []
  | b :: rest, cur =>
    if b = 10 then (cur ++ [b]) :: splitLines rest []
    else splitLines rest (cur ++ [b])

/-- The filter of the specification: at least 5 characters, the last 5 being
`.json`. -/
def acceptsPath (p : Bytes) : Bool :=
  decide (5 ≤ p.length) && (p.drop (p.length - 5) == dotJson)

/-- The accepted lines among the given lines: each is trimmed of white space and
kept when it passes the filter. -/
def acceptedLines (lines : List Bytes) : List Bytes :=
  (lines.map TrimSpace).filter acceptsPath

/-- The 22-byte buffer of the scenario: an opening brace, a line feed, two spaces
and `"a": 1`, a line feed, two spaces and `"b": 2`, a line feed, a closing brace,
a line feed. -/
def scenarioBuf : Bytes :=
  [123, 10, 32, 32, 34, 97, 34, 58, 32, 49, 10, 32, 32, 34, 98, 34, 58, 32, 50, 10, 125, 10]

/-- The two lines `  "a": 1` and `  "b": 2` joined by one line feed (17 bytes). -/
def scenarioTwoLines : Bytes :=
  [32, 32, 34, 97, 34, 58, 32, 49, 10, 32, 32, 34, 98, 34, 58, 32, 50]

/-- The first 21 bytes of the scenario buffer: all of it but the final line feed. -/
def scenarioWindow : Bytes :=
  [123, 10, 32, 32, 34, 97, 34, 58, 32, 49, 10, 32, 32, 34, 98, 34, 58, 32, 50, 10, 125]

/-- The path `a.json`. -/
def aJson : Bytes := [97, 46, 106, 115, 111, 110]

/-- The path `b.json`. -/
def bJson : Bytes := [98, 46, 106, 115, 111, 110]

/-- A file that opens and holds the valid JSON document `[1]`. -/
def arrayFile : File := ⟨none, [91, 49, 93], .document .array true, none, none⟩

/-- A file that opens and holds the valid JSON document `"s"`. -/
def stringFile : File := ⟨none, [34, 115, 34], .document .string true, none, none⟩

/-- A file that opens and holds the valid JSON document `1`. -/
def numberFile : File := ⟨none, [49], .document .number true, none, none⟩

/-- A file that opens and holds the valid JSON document `true`. -/
def booleanFile : File := ⟨none, [116, 114, 117, 101], .document .boolean true, none, none⟩

/-- A file that opens and holds the valid JSON document `{"x":1}`. -/
def objectFile : File :=
  ⟨none, [123, 34, 120, 34, 58, 49, 125], .document .object true, none, none⟩

/-- A file that opens and is empty: the decode returns `io.EOF`. -/
def emptyFile : File := ⟨none, [], .readFailure ioEOF, none, none⟩

/-- A file that opens and holds the 10 bytes `{"a": 1 x}`, which the scanner
rejects at the `x`, after reading 9 bytes. -/
def strayByteFile : File :=
  ⟨none, [123, 34, 97, 34, 58, 32, 49, 32, 120, 125], .malformed "invalid character" 9,
    none, none⟩

/-- The 4099 bytes made of 2049 spaces, the byte `x` and 2049 spaces. -/
def longContent : Bytes := List.replicate 2049 32 ++ 120 :: List.replicate 2049 32

/-- A file that opens and holds 4099 bytes: 2049 spaces, the byte `x`, 2049 spaces;
the scanner rejects it at the `x`, after reading 2050 bytes. -/
def longFile : File :=
  ⟨none, longContent, .malformed "invalid character" 2050, none, none⟩

/-- The stream `a.json`, line feed, `b.json`, line feed. -/
def twoPathStream : Reader :=
  ⟨[97, 46, 106, 115, 111, 110, 10, 98, 46, 106, 115, 111, 110, 10], none⟩


/-! ## The backward scan -/

theorem isNewlineAt_of_getElem? (buf : Bytes) (i : Nat) (b : Byte) (h : buf[i]? = some b) :
    isNewlineAt buf i = decide (b = 10) := by
  simp [isNewlineAt, h]

theorem backLoop_eq (buf : Bytes) :
    ∀ (snl newlines : Nat), snl < buf.length → newlines ≤ 2 →
      backLoop buf snl newlines
        = .ok (((((List.range (snl + 1)).reverse).filter (isNewlineAt buf))[2 - newlines]?).getD 0) := by
  intro snl
  induction snl with
  | zero =>
    intro newlines _ _
    have hrange : (List.range (0 + 1)).reverse = [0] := rfl
    rw [hrange, List.filter_cons]
    simp only [backLoop]
    by_cases h0 : isNewlineAt buf 0 = true
    · rcases Nat.eq_zero_or_pos (2 - newlines) with h | h
      · simp [h0, h]
      · obtain ⟨k, hk⟩ := Nat.exists_eq_succ_of_ne_zero (Nat.pos_iff_ne_zero.mp h)
        simp [h0, hk]
    · simp [h0]
  | succ n ih =>
    intro newlines hlt hnl
    have hget : buf[n + 1]? = some (buf[n + 1]) := List.getElem?_eq_getElem hlt
    have hrange : (List.range (n + 1 + 1)).reverse = (n + 1) :: (List.range (n + 1)).reverse := by
      rw [List.range_succ (n + 1)]; simp
    rw [hrange, List.filter_cons, isNewlineAt_of_getElem? buf (n + 1) _ hget]
    simp only [backLoop, hget]
    by_cases hb : buf[n + 1] = 10
    · simp only [hb, ne_eq, not_true_eq_false, if_false, decide_True, if_true]
      by_cases h3 : newlines + 1 = 3
      · have : 2 - newlines = 0 := by omega
        simp [h3, this]
      · have h2 : 2 - newlines = (2 - (newlines + 1)) + 1 := by omega
        rw [if_neg h3, ih (newlines + 1) (by omega) (by omega), h2]
        simp
    · simp only [hb, ne_eq, not_false_eq_true, if_true, decide_False]
      rw [ih newlines (by omega) hnl]
      simp

theorem windowStartSpec_le (buf : Bytes) (offset : Nat) : windowStartSpec buf offset ≤ offset := by
  unfold windowStartSpec
  cases h : (newlinesBackward buf offset)[2]? with
  | none => simp
  | some i =>
    have hmem : i ∈ newlinesBackward buf offset := List.getElem?_mem h
    simp only [newlinesBackward, List.mem_filter, List.mem_reverse, List.mem_range] at hmem
    simp only [Option.getD_some]
    omega

/-! ## The forward scan -/

theorem fwdLoop_eq (buf : Bytes) (snl : Nat) (hsnl : snl < buf.length) :
    ∀ (fuel enl newlines : Nat), buf.length - enl < fuel → newlines ≤ 1 →
      fwdLoop buf snl fuel enl newlines
        = match ((List.range' enl (buf.length - enl)).filter (isNewlineAt buf))[1 - newlines]? with
          | some i => .ok i
          | none => .error .indexOutOfRange := by
  intro fuel
  induction fuel with
  | zero => intro enl newlines h _; omega
  | succ fuel ih =>
    intro enl newlines hfuel hnl
    simp only [fwdLoop, hsnl, if_true]
    by_cases hlt : enl < buf.length
    · have hget : buf[enl]? = some (buf[enl]) := List.getElem?_eq_getElem hlt
      have hlen : buf.length - enl = (buf.length - (enl + 1)) + 1 := by omega
      rw [hlen, List.range'_succ, List.filter_cons, isNewlineAt_of_getElem? buf enl _ hget]
      simp only [hget]
      by_cases hb : buf[enl] = 10
      · simp only [hb, ne_eq, not_true_eq_false, if_false, decide_True, if_true]
        by_cases h2 : newlines + 1 = 2
        · have : 1 - newlines = 0 := by omega
          simp [h2, this]
        · have h1 : 1 - newlines = (1 - (newlines + 1)) + 1 := by omega
          rw [if_neg h2, ih (enl + 1) (newlines + 1) (by omega) (by omega), h1]
          simp
      · simp only [hb, ne_eq, not_false_eq_true, if_true, decide_False]
        rw [ih (enl + 1) newlines (by omega) hnl]
        simp
    · have hget : buf[enl]? = none := List.getElem?_eq_none (by omega)
      have hlen : buf.length - enl = 0 := by omega
      simp [hget, hlen]


theorem fwdLoop_ok_bounds (buf : Bytes) (snl offset enl : Nat) (hsnl : snl < buf.length)
    (h : fwdLoop buf snl (buf.length + 1) offset 0 = .ok enl) :
    offset ≤ enl ∧ enl < buf.length ∧ (newlinesForward buf offset)[1]? = some enl := by
  rw [fwdLoop_eq buf snl hsnl (buf.length + 1) offset 0 (by omega) (by omega)] at h
  have h10 : 1 - 0 = 1 := rfl
  rw [h10] at h
  cases hi : ((List.range' offset (buf.length - offset)).filter (isNewlineAt buf))[1]? with
  | none => rw [hi] at h; simp at h
  | some i =>
    rw [hi] at h
    simp only [Except.ok.injEq] at h
    subst h
    have hmem := List.getElem?_mem hi
    simp only [List.mem_filter, List.mem_range'_1] at hmem
    refine ⟨hmem.1.1, by omega, ?_⟩
    simpa [newlinesForward] using hi

/-! ## The iteration budget of the forward loop is never used up -/

theorem backLoop_error (buf : Bytes) :
    ∀ (snl newlines : Nat) (p : Panic),
      backLoop buf snl newlines = .error p → p = .indexOutOfRange := by
  intro snl
  induction snl with
  | zero => intro newlines p h; simp [backLoop] at h
  | succ n ih =>
    intro newlines p h
    simp only [backLoop] at h
    cases hget : buf[n + 1]? with
    | none => rw [hget] at h; simp only [Except.error.injEq] at h; exact h.symm
    | some b =>
      rw [hget] at h
      simp only at h
      by_cases hb : b = 10
      · simp only [hb, ne_eq, not_true_eq_false, if_false] at h
        by_cases h3 : newlines + 1 = 3
        · rw [if_pos h3] at h; simp at h
        · rw [if_neg h3] at h; exact ih _ p h
      · simp only [hb, ne_eq, not_false_eq_true, if_true] at h
        exact ih _ p h

theorem fwdLoop_error (buf : Bytes) (snl : Nat) :
    ∀ (fuel enl newlines : Nat) (p : Panic), buf.length - enl < fuel →
      fwdLoop buf snl fuel enl newlines = .error p → p = .indexOutOfRange := by
  intro fuel
  induction fuel with
  | zero => intro enl newlines p h _; omega
  | succ fuel ih =>
    intro enl newlines p hfuel h
    simp only [fwdLoop] at h
    by_cases hs : snl < buf.length
    · rw [if_pos hs] at h
      cases hget : buf[enl]? with
      | none => rw [hget] at h; simp only [Except.error.injEq] at h; exact h.symm
      | some b =>
        have hlt : enl < buf.length := by
          by_contra hc
          rw [List.getElem?_eq_none (by omega)] at hget
          simp at hget
        rw [hget] at h
        simp only at h
        by_cases hb : b = 10
        · simp only [hb, ne_eq, not_true_eq_false, if_false] at h
          by_cases h2 : newlines + 1 = 2
          · rw [if_pos h2] at h; simp at h
          · rw [if_neg h2] at h; exact ih _ _ p (by omega) h
        · simp only [hb, ne_eq, not_false_eq_true, if_true] at h
          exact ih _ _ p (by omega) h
    · rw [if_neg hs] at h; simp at h

theorem getWindow_budget (buf : Bytes) (offset : Int) : getWindow buf offset ≠ .error .fuel := by
  intro h
  unfold getWindow at h
  by_cases hneg : offset < 0
  · rw [if_pos hneg] at h; simp at h
  · rw [if_neg hneg] at h
    cases hb : backLoop buf offset.toNat 0 with
    | error p =>
      rw [hb] at h
      simp only [Except.error.injEq] at h
      have := backLoop_error buf _ _ p hb
      rw [h] at this; simp at this
    | ok snl =>
      rw [hb] at h
      simp only at h
      cases hf : fwdLoop buf snl (buf.length + 1) offset.toNat 0 with
      | error p =>
        rw [hf] at h
        simp only [Except.error.injEq] at h
        have := fwdLoop_error buf snl _ _ _ p (by omega) hf
        rw [h] at this; simp at this
      | ok enl =>
        rw [hf] at h
        simp only at h
        unfold slice at h
        by_cases hc : snl ≤ enl ∧ enl ≤ buf.length
        · rw [if_pos hc] at h; simp at h
        · rw [if_neg hc] at h; simp at h

/-! ## `bytes.Trim` -/

theorem isCutset_eq_false (b : Byte) (h : isCutset b = false) : b ≠ 13 ∧ b ≠ 10 := by
  simpa [isCutset] using h

theorem bytesTrim_subslice (s : Bytes) :
    ∃ a b, a ≤ b ∧ b ≤ s.length ∧ bytesTrim s = (s.drop a).take (b - a) := by
  have hpre : s.rdropWhile isCutset <+: s := List.rdropWhile_prefix isCutset s
  have hsuf : (s.rdropWhile isCutset).dropWhile isCutset <:+ s.rdropWhile isCutset :=
    List.dropWhile_suffix isCutset
  have h1 := List.prefix_iff_eq_take.mp hpre
  have h2 := List.suffix_iff_eq_drop.mp hsuf
  have hl1 := hpre.length_le
  have hl2 := hsuf.length_le
  refine ⟨(s.rdropWhile isCutset).length - ((s.rdropWhile isCutset).dropWhile isCutset).length,
    (s.rdropWhile isCutset).length, by omega, hl1, ?_⟩
  unfold bytesTrim
  rw [← List.drop_take, ← h1]
  exact h2

theorem bytesTrim_head (s : Bytes) (b : Byte) (h : (bytesTrim s).head? = some b) :
    b ≠ 13 ∧ b ≠ 10 := by
  have := List.head?_dropWhile_not isCutset (s.rdropWhile isCutset)
  unfold bytesTrim at h
  rw [h] at this
  exact isCutset_eq_false b this

theorem bytesTrim_getLast (s : Bytes) (b : Byte) (h : (bytesTrim s).getLast? = some b) :
    b ≠ 13 ∧ b ≠ 10 := by
  have hsuf : (s.rdropWhile isCutset).dropWhile isCutset <:+ s.rdropWhile isCutset :=
    List.dropWhile_suffix isCutset
  have hne : bytesTrim s ≠ [] := by
    intro h0; rw [h0] at h; simp at h
  have hne2 : s.rdropWhile isCutset ≠ [] := hsuf.ne_nil hne
  have hlast := hsuf.getLast hne
  have hnot := List.rdropWhile_last_not isCutset s hne2
  rw [List.getLast?_eq_getLast _ hne] at h
  simp only [Option.some.injEq] at h
  have hb : isCutset b = false := by
    have : b = (s.rdropWhile isCutset).getLast hne2 := by rw [← h]; exact hlast
    rw [this]
    simpa using hnot
  exact isCutset_eq_false b hb

theorem slice_bytesTrim (buf : Bytes) (snl enl : Nat) (h1 : snl ≤ enl) (h2 : enl ≤ buf.length) :
    ∃ i j, snl ≤ i ∧ i ≤ j ∧ j ≤ enl ∧
      bytesTrim ((buf.drop snl).take (enl - snl)) = (buf.drop i).take (j - i) := by
  obtain ⟨a, b, hab, hb, heq⟩ := bytesTrim_subslice ((buf.drop snl).take (enl - snl))
  have hlen : ((buf.drop snl).take (enl - snl)).length = enl - snl := by
    simp only [List.length_take, List.length_drop]; omega
  rw [hlen] at hb
  refine ⟨snl + a, snl + b, by omega, by omega, by omega, ?_⟩
  rw [heq, List.drop_take, List.drop_drop, List.take_take]
  have e1 : min (b - a) (enl - snl - a) = snl + b - (snl + a) := by omega
  rw [e1]

/-! ## The reader of the candidate stream -/

theorem splitLines_of_readUntil (r : Bytes) :
    ∀ cur : Bytes,
      (splitLines r cur).take 1
        = if (readUntil 10 r).2 = true then [cur ++ (readUntil 10 r).1] else [] := by
  induction r with
  | nil => intro cur; simp [splitLines, readUntil]
  | cons b rest ih =>
    intro cur
    by_cases hb : b = 10
    · simp [splitLines, readUntil, hb]
    · simp only [splitLines, readUntil, hb, if_false]
      rw [ih (cur ++ [b])]
      simp

theorem handleOutput_of_line (r : Reader) (line : Bytes) (h : ReadString r 10 = (line, none)) :
    handleOutput r
      = .ok (if 5 ≤ (TrimSpace line).length
              ∧ (TrimSpace line).drop ((TrimSpace line).length - 5) = dotJson
            then [TrimSpace line] else []) := by
  unfold handleOutput
  rw [h]
  simp only
  by_cases h5 : ((TrimSpace line).length : Int) < 5
  · have : ¬ 5 ≤ (TrimSpace line).length := by omega
    simp [h5, this]
  · have h5n : 5 ≤ (TrimSpace line).length := by omega
    have hlen : (dotJson.length : Int) = 5 := rfl
    have hs : sliceFrom (TrimSpace line) (((TrimSpace line).length : Int) - (dotJson.length : Int))
        = .ok ((TrimSpace line).drop ((TrimSpace line).length - 5)) := by
      unfold sliceFrom
      rw [hlen]
      have hc : (0 : Int) ≤ ((TrimSpace line).length : Int) - 5
          ∧ ((TrimSpace line).length : Int) - 5 ≤ ((TrimSpace line).length : Int) := by omega
      have ht : (((TrimSpace line).length : Int) - 5).toNat = (TrimSpace line).length - 5 := by
        omega
      rw [if_pos hc, ht]
    rw [if_neg h5, hs]
    by_cases hsuf : (TrimSpace line).drop ((TrimSpace line).length - 5) = dotJson
    · simp [hsuf, h5n]
    · simp [hsuf]

/-! ## Properties of `getWindow` -/

/-- C6: for every buffer and every offset with 0 <= offset < len(buffer), the backward
scan of getWindow returns, and the window start `snl` it leaves is the index of the
3rd line feed met scanning backward from offset (inclusive) toward index 0, and 0
when fewer than 3 are met; it is never above offset (and, a natural number, never
negative). -/
theorem backLoop_third_newline (buf : Bytes) (offset : Nat) (h : offset < buf.length) :
    backLoop buf offset 0 = .ok (windowStartSpec buf offset)
      ∧ windowStartSpec buf offset ≤ offset
      ∧ ((newlinesBackward buf offset).length < 3 → windowStartSpec buf offset = 0) := by
  refine ⟨?_, windowStartSpec_le buf offset, ?_⟩
  · rw [backLoop_eq buf offset 0 h (by omega)]
    rfl
  · intro hlen
    unfold windowStartSpec
    rw [List.getElem?_eq_none (by omega)]
    rfl

/-- Witness of C6 on the scenario buffer at offset 20, where the 3rd line feed met
backward is at index 1. -/
theorem backLoop_third_newline_witness :
    20 < scenarioBuf.length
      ∧ (backLoop scenarioBuf 20 0 = .ok (windowStartSpec scenarioBuf 20)
        ∧ windowStartSpec scenarioBuf 20 ≤ 20
        ∧ ((newlinesBackward scenarioBuf 20).length < 3 → windowStartSpec scenarioBuf 20 = 0)) :=
  ⟨by decide, backLoop_third_newline scenarioBuf 20 (by decide)⟩

/-- C7: for every buffer and every offset with 0 <= offset < len(buffer) on which
getWindow returns a window, the window is the contiguous sub-slice buffer[i:j] with
snl <= i <= j <= enl <= len(buffer), where snl and enl are the indices left by the
two scans, and it neither begins nor ends with a carriage return or a line feed. -/
theorem getWindow_subslice (buf : Bytes) (offset : Nat) (h : offset < buf.length)
    (w : Bytes) (hw : getWindow buf (offset : Int) = .ok w) :
    ∃ snl enl i j,
      backLoop buf offset 0 = .ok snl
        ∧ fwdLoop buf snl (buf.length + 1) offset 0 = .ok enl
        ∧ snl ≤ i ∧ i ≤ j ∧ j ≤ enl ∧ enl ≤ buf.length
        ∧ w = (buf.drop i).take (j - i)
        ∧ (∀ b, w.head? = some b → b ≠ 13 ∧ b ≠ 10)
        ∧ (∀ b, w.getLast? = some b → b ≠ 13 ∧ b ≠ 10) := by
  have hback := backLoop_eq buf offset 0 h (by omega)
  have hsnl_le := windowStartSpec_le buf offset
  have hneg : ¬ ((offset : Int) < 0) := by omega
  unfold getWindow at hw
  rw [if_neg hneg, Int.toNat_ofNat, hback] at hw
  simp only at hw
  cases hf : fwdLoop buf (((((List.range (offset + 1)).reverse).filter
      (isNewlineAt buf))[2 - 0]?).getD 0) (buf.length + 1) offset 0 with
  | error p => rw [hf] at hw; simp at hw
  | ok enl =>
    rw [hf] at hw
    simp only at hw
    have hsnl : ((((List.range (offset + 1)).reverse).filter
        (isNewlineAt buf))[2 - 0]?).getD 0 ≤ offset := hsnl_le
    obtain ⟨hoff, henl, _⟩ := fwdLoop_ok_bounds buf _ offset enl (by omega) hf
    have hcond : ((((List.range (offset + 1)).reverse).filter
        (isNewlineAt buf))[2 - 0]?).getD 0 ≤ enl ∧ enl ≤ buf.length := ⟨by omega, by omega⟩
    unfold slice at hw
    rw [if_pos hcond] at hw
    simp only [Except.ok.injEq] at hw
    obtain ⟨i, j, h1, h2, h3, heq⟩ := slice_bytesTrim buf _ enl hcond.1 hcond.2
    refine ⟨_, enl, i, j, hback, hf, h1, h2, h3, hcond.2, ?_, ?_, ?_⟩
    · rw [← hw, heq]
    · intro b hb
      rw [← hw] at hb
      exact bytesTrim_head _ b hb
    · intro b hb
      rw [← hw] at hb
      exact bytesTrim_getLast _ b hb

/-- Witness of C7 on the scenario buffer at offset 13. -/
theorem getWindow_subslice_witness :
    13 < scenarioBuf.length ∧ getWindow scenarioBuf ((13 : Nat) : Int) = .ok scenarioWindow
      ∧ ∃ snl enl i j,
          backLoop scenarioBuf 13 0 = .ok snl
            ∧ fwdLoop scenarioBuf snl (scenarioBuf.length + 1) 13 0 = .ok enl
            ∧ snl ≤ i ∧ i ≤ j ∧ j ≤ enl ∧ enl ≤ scenarioBuf.length
            ∧ scenarioWindow = (scenarioBuf.drop i).take (j - i)
            ∧ (∀ b, scenarioWindow.head? = some b → b ≠ 13 ∧ b ≠ 10)
            ∧ (∀ b, scenarioWindow.getLast? = some b → b ≠ 13 ∧ b ≠ 10) :=
  ⟨by decide, by decide, getWindow_subslice scenarioBuf 13 (by decide) scenarioWindow (by decide)⟩

/-- C5, the code at a failing input: on the scenario buffer with offset 20 (the
closing brace of the last line) only one line feed, at index 21, is met scanning
forward, so the window end of the specification is len(buffer) = 22; the forward
loop of the code, whose condition tests `snl` and not `enl`, reads buf[22] and
panics with an index out of range. -/
theorem getWindow_forward_overrun :
    20 < scenarioBuf.length
      ∧ newlinesForward scenarioBuf 20 = [21]
      ∧ windowEndSpec scenarioBuf 20 = scenarioBuf.length
      ∧ backLoop scenarioBuf 20 0 = .ok 1
      ∧ fwdLoop scenarioBuf 1 (scenarioBuf.length + 1) 20 0 = .error .indexOutOfRange
      ∧ getWindow scenarioBuf 20 = .error .indexOutOfRange := by
  decide

/-- C8, counterexample: on the scenario buffer with offset 13, 14 or 15 getWindow
does not return the two lines `  "a": 1` and `  "b": 2`. -/
theorem getWindow_scenario_not_two_lines :
    getWindow scenarioBuf 13 ≠ .ok scenarioTwoLines
      ∧ getWindow scenarioBuf 14 ≠ .ok scenarioTwoLines
      ∧ getWindow scenarioBuf 15 ≠ .ok scenarioTwoLines := by
  decide

/-- C8 as amended: on the scenario buffer with offset 13, 14 or 15 getWindow returns
the first 21 bytes of the buffer, the four lines from the opening brace to the
closing brace without the final line feed: the backward scan meets 2 line feeds
only and stops at index 0, the forward scan stops at the 2nd line feed, index 21. -/
theorem getWindow_scenario :
    (getWindow scenarioBuf 13 = .ok scenarioWindow
      ∧ getWindow scenarioBuf 14 = .ok scenarioWindow
      ∧ getWindow scenarioBuf 15 = .ok scenarioWindow)
      ∧ scenarioWindow = scenarioBuf.take 21
      ∧ (backLoop scenarioBuf 13 0 = .ok 0 ∧ newlinesBackward scenarioBuf 13 = [10, 1])
      ∧ fwdLoop scenarioBuf 0 (scenarioBuf.length + 1) 13 0 = .ok 21 := by
  decide

/-! ## Properties of `handleOutput` -/

/-- C3: for every line read from the candidate stream (a newline-terminated line, read
with a nil error), handleOutput passes the white-space-trimmed line to handleFile if
and only if the trimmed line has length at least 5 and its final 5 bytes are `.json`;
a trimmed line shorter than 5 bytes or not ending in `.json` starts no handleFile; and
the suffix test never slices outside the line (no panic). -/
theorem handleOutput_filter (r : Reader) (line : Bytes) (h : ReadString r 10 = (line, none)) :
    (handleOutput r = .ok [TrimSpace line]
        ↔ (5 ≤ (TrimSpace line).length
            ∧ (TrimSpace line).drop ((TrimSpace line).length - 5) = dotJson))
      ∧ (((TrimSpace line).length < 5
            ∨ (TrimSpace line).drop ((TrimSpace line).length - 5) ≠ dotJson)
          → handleOutput r = .ok [])
      ∧ (∀ p, handleOutput r ≠ .error (.panicked p)) := by
  have hout := handleOutput_of_line r line h
  refine ⟨?_, ?_, ?_⟩
  · constructor
    · intro heq
      rw [hout] at heq
      by_contra hc
      rw [if_neg hc] at heq
      simp at heq
    · intro hc
      rw [hout, if_pos hc]
  · intro hc
    have hn : ¬ (5 ≤ (TrimSpace line).length
        ∧ (TrimSpace line).drop ((TrimSpace line).length - 5) = dotJson) := by
      rintro ⟨h5, hs⟩
      rcases hc with hc | hc
      · omega
      · exact hc hs
    rw [hout, if_neg hn]
  · intro p hp
    rw [hout] at hp
    simp at hp

/-- Witness of C3 on the stream `a.json`, line feed, `b.json`, line feed, whose first
line is `a.json` with its line feed. -/
theorem handleOutput_filter_witness :
    ReadString twoPathStream 10 = (aJson ++ [10], none)
      ∧ ((handleOutput twoPathStream = .ok [TrimSpace (aJson ++ [10])]
            ↔ (5 ≤ (TrimSpace (aJson ++ [10])).length
                ∧ (TrimSpace (aJson ++ [10])).drop ((TrimSpace (aJson ++ [10])).length - 5)
                    = dotJson))
          ∧ (((TrimSpace (aJson ++ [10])).length < 5
                ∨ (TrimSpace (aJson ++ [10])).drop ((TrimSpace (aJson ++ [10])).length - 5)
                    ≠ dotJson)
              → handleOutput twoPathStream = .ok [])
          ∧ (∀ p, handleOutput twoPathStream ≠ .error (.panicked p))) :=
  ⟨by decide, handleOutput_filter twoPathStream (aJson ++ [10]) (by decide)⟩

/-- C1, counterexample: on the stream `a.json`, line feed, `b.json`, line feed both
lines are accepted, and the program hands only `a.json` to handleFile. -/
theorem dispatched_not_all_lines :
    acceptedLines (splitLines twoPathStream.data []) = [aJson, bJson]
      ∧ dispatched twoPathStream = .ok [aJson]
      ∧ dispatched twoPathStream ≠ .ok (acceptedLines (splitLines twoPathStream.data [])) := by
  decide

/-- C1 as amended: for every candidate stream of newline-terminated paths, the list of
paths handed to handleFile equals the list of accepted lines among the first line of
the stream alone: at most one path; later lines are not read. -/
theorem dispatched_first_line (data : Bytes) :
    dispatched ⟨data, none⟩ = .ok (acceptedLines ((splitLines data []).take 1)) := by
  unfold dispatched
  rw [splitLines_of_readUntil data []]
  cases hfound : (readUntil 10 data).2 with
  | false =>
    have hread : ReadString ⟨data, none⟩ 10 = ((readUntil 10 data).1, some ioEOF) := by
      unfold ReadString
      rw [← Prod.mk.eta (p := readUntil 10 data), hfound]
      rfl
    unfold handleOutput
    rw [hread]
    simp [acceptedLines]
  | true =>
    have hread : ReadString ⟨data, none⟩ 10 = ((readUntil 10 data).1, none) := by
      unfold ReadString
      rw [← Prod.mk.eta (p := readUntil 10 data), hfound]
    rw [handleOutput_of_line _ _ hread]
    simp only [if_true, List.nil_append, acceptedLines, List.map_cons, List.map_nil,
      List.filter_cons, List.filter_nil, acceptsPath, Bool.and_eq_true, decide_eq_true_eq,
      beq_iff_eq]

/-! ## Properties of `handleFile` -/

/-- A file that opens and whose document decodes into the map without error, namely a
top-level null or a top-level object whose numbers fit float64, is passed through:
handleFile sends no failure signal, emits no diagnostic, makes no further file-system
call and returns right after the decode. -/
theorem handleFile_valid (path : Bytes) (f : File) (numbersFit : Bool)
    (hopen : f.openErr = none)
    (hdoc : f.parse = .document .null numbersFit ∨ f.parse = .document .object true) :
    handleFile path f = ⟨0, [], [], .returned⟩ := by
  have hdec : Decode f.parse = none := by
    rcases hdoc with hd | hd
    · rw [hd]; rfl
    · rw [hd]; rfl
  unfold handleFile
  simp only [hopen, hdec]

/-- The pass-through of valid documents applied to a file holding an object. -/
theorem handleFile_valid_object :
    objectFile.openErr = none
      ∧ (objectFile.parse = .document .null true ∨ objectFile.parse = .document .object true)
      ∧ handleFile aJson objectFile = ⟨0, [], [], .returned⟩ :=
  ⟨rfl, Or.inr rfl, handleFile_valid aJson objectFile true rfl (Or.inr rfl)⟩

/-- C2, the code at failing inputs: files that open and hold the syntactically valid JSON
documents `[1]`, `"s"`, `1` and `true` do not decode into the
`map[string]interface{}` target of line 60: the decode returns an UnmarshalTypeError
and handleFile sends a failure signal on the channel instead of returning as Valid with
no signal (the run then ends in the nil dereference of line 75). -/
theorem handleFile_valid_documents_rejected :
    (arrayFile.openErr = none ∧ arrayFile.parse = .document .array true
        ∧ Decode arrayFile.parse = some (.UnmarshalTypeError "array")
        ∧ (handleFile aJson arrayFile).signals = 1
        ∧ handleFile aJson arrayFile ≠ ⟨0, [], [], .returned⟩)
      ∧ (stringFile.parse = .document .string true
        ∧ Decode stringFile.parse = some (.UnmarshalTypeError "string")
        ∧ (handleFile aJson stringFile).signals = 1
        ∧ handleFile aJson stringFile ≠ ⟨0, [], [], .returned⟩)
      ∧ (numberFile.parse = .document .number true
        ∧ Decode numberFile.parse = some (.UnmarshalTypeError "number")
        ∧ (handleFile aJson numberFile).signals = 1
        ∧ handleFile aJson numberFile ≠ ⟨0, [], [], .returned⟩)
      ∧ (booleanFile.parse = .document .boolean true
        ∧ Decode booleanFile.parse = some (.UnmarshalTypeError "bool")
        ∧ (handleFile aJson booleanFile).signals = 1
        ∧ handleFile aJson booleanFile ≠ ⟨0, [], [], .returned⟩) := by
  decide

/-- C4, the code at failing inputs: on a file whose decode error is not a SyntaxError
(the document `[1]`, which gives an UnmarshalTypeError, and the empty file, which
gives io.EOF) handleFile sends the failure signal and then calls `Error()` on the nil
`err` of `os.OpenFile`: it panics and logs no diagnostic. -/
theorem handleFile_offset_zero_panics :
    Decode arrayFile.parse = some (.UnmarshalTypeError "array")
      ∧ handleFile aJson arrayFile = ⟨1, [], [], .panicked .nilDereference⟩
      ∧ Decode emptyFile.parse = some ioEOF
      ∧ handleFile aJson emptyFile = ⟨1, [], [], .panicked .nilDereference⟩ := by
  decide

/-- C9, the code at a failing input: on a 10-byte file with a syntax error at offset 9
(0 < 9 <= 10) handleFile computes start = 0 and a buffer of size - offset = 1 byte,
and calls getWindow with offset 9, outside the buffer: the first access buf[9]
panics. -/
theorem handleFile_window_precondition_broken :
    strayByteFile.content.length = 10
      ∧ Decode strayByteFile.parse = some (.SyntaxError "invalid character" 9)
      ∧ windowRange 10 9 = (0, 1)
      ∧ ¬ ((9 : Int) - (windowRange 10 9).1 < (windowRange 10 9).2)
      ∧ handleFile aJson strayByteFile
          = ⟨1, [], [.stat, .seek 0, .readFull 1], .panicked .indexOutOfRange⟩ := by
  decide

theorem readFull_short (content : Bytes) (start n : Nat)
    (h1 : start < content.length) (h2 : content.length < start + n) :
    readFull content start n = .error ioErrUnexpectedEOF := by
  unfold readFull
  have hl : (content.drop start).length = content.length - start := List.length_drop start content
  simp only [hl]
  rw [if_neg (by omega), if_neg (by omega)]

theorem handleFile_short_read (path : Bytes) (f : File) (msg : String) (off : Int) (e : GoError)
    (hopen : f.openErr = none) (hdec : Decode f.parse = some (.SyntaxError msg off))
    (hoff : off ≠ 0) (hstat : f.statErr = none) (hseek : f.seekErr = none)
    (hend : ¬ (windowRange f.content.length off).2 < 0)
    (hread : readFull f.content (windowRange f.content.length off).1.toNat
        (windowRange f.content.length off).2.toNat = .error e) :
    handleFile path f
      = ⟨1, [], [.stat, .seek (windowRange f.content.length off).1,
          .readFull (windowRange f.content.length off).2], .fatal e⟩ := by
  unfold handleFile
  simp only [hopen, hdec, hstat, hseek, if_neg hoff, if_neg hend, hread]

theorem longContent_length : longContent.length = 4099 := by
  unfold longContent
  rw [List.length_append, List.length_cons, List.length_replicate]

/-- C10, the code at a failing input: on a 4099-byte file with a syntax error at offset
2050, start = 2 and start + windowSize = 4098 < 4099, and the buffer handleFile
allocates has start + windowSize = 4098 bytes, not 4096; the read of 4098 bytes from
position 2 runs past the end of the file, is short, and handleErr exits. -/
theorem handleFile_window_length_not_windowSize :
    longFile.content.length = 4099
      ∧ Decode longFile.parse = some (.SyntaxError "invalid character" 2050)
      ∧ (windowRange 4099 2050).1 = 2
      ∧ (windowRange 4099 2050).1 + windowSize < 4099
      ∧ (windowRange 4099 2050).2 = 4098
      ∧ (windowRange 4099 2050).2 ≠ windowSize
      ∧ handleFile aJson longFile
          = ⟨1, [], [.stat, .seek 2, .readFull 4098], .fatal ioErrUnexpectedEOF⟩ := by
  have hlen : longFile.content.length = 4099 := longContent_length
  have hrange : windowRange ((4099 : Nat) : Int) 2050 = (2, 4098) := by decide
  have hread : readFull longFile.content 2 4098 = .error ioErrUnexpectedEOF :=
    readFull_short longFile.content 2 4098 (by omega) (by omega)
  have hrun := handleFile_short_read aJson longFile "invalid character" 2050 ioErrUnexpectedEOF
    rfl rfl (by decide) rfl rfl
  rw [hlen, hrange] at hrun
  exact ⟨hlen, rfl, by decide, by decide, by decide, by decide, hrun (by decide) hread⟩

end JsonPreCommit
